import Mathlib

/-!
Verification development for the go-ultrastar library (package ultrastar).

Go strings are modelled as lists of characters (GoStr). Go runtime panics
(index out of range, slice bounds) are modelled by the GoRes.panic outcome;
loops whose termination is in question run on explicit fuel, with
GoRes.noFuel marking fuel exhaustion. Fallible Go functions returning
(value, error) pairs are modelled with Except.
-/

namespace GoUltrastar

/-- Model of a Go string: a list of characters. -/
abbrev GoStr := List Char

/-- Conversion from Lean string literals to the Go string model. -/
def str (s : String) : GoStr := s.data

/-- Outcome of running a piece of Go code: a normal result, a runtime panic,
or exhaustion of the explicit fuel bound. -/
inductive GoRes (α : Type) where
  | ok (val : α)
  | panic
  | noFuel
deriving DecidableEq

instance {ε α : Type} [DecidableEq ε] [DecidableEq α] : DecidableEq (Except ε α) := fun x y =>
  match x, y with
  | .ok a, .ok b =>
    if h : a = b then isTrue (by rw [h]) else isFalse (fun hc => h (Except.ok.inj hc))
  | .error a, .error b =>
    if h : a = b then isTrue (by rw [h]) else isFalse (fun hc => h (Except.error.inj hc))
  | .ok _, .error _ => isFalse (fun hc => Except.noConfusion hc)
  | .error _, .ok _ => isFalse (fun hc => Except.noConfusion hc)

/-- Model of unicode.IsSpace restricted to the ASCII whitespace characters
that occur in the UltraStar format. -/
def isSpaceChar (c : Char) : Bool :=
  c = ' ' || c = '\t' || c = '\n' || c = '\r' || c = '\x0b' || c = '\x0c'

/-- Model of bytes.TrimLeft / strings.TrimLeftFunc over whitespace. -/
def trimLeft (s : GoStr) : GoStr := s.dropWhile isSpaceChar

/-- Model of trimming trailing whitespace. -/
def trimRight (s : GoStr) : GoStr := (s.reverse.dropWhile isSpaceChar).reverse

/-- Model of bytes.TrimSpace / strings.TrimSpace. -/
def trimSpace (s : GoStr) : GoStr := trimRight (trimLeft s)

/-- Model of strings.ToUpper (ASCII). -/
def goToUpper (s : GoStr) : GoStr := s.map Char.toUpper

/-- nextField from reader.go: returns the first contiguous run of
non-whitespace characters (ignoring leading whitespace) and the remainder,
which may start with a whitespace character. -/
def nextField (bs : GoStr) : GoStr × GoStr :=
  let bs1 := bs.dropWhile isSpaceChar
  (bs1.takeWhile (fun c => !isSpaceChar c), bs1.dropWhile (fun c => !isSpaceChar c))

/-- Digit run to number: all characters must be decimal digits and the run
must be non-empty, otherwise none. Helper for the strconv.Atoi model. -/
def digitsToNat : GoStr → Option Nat
  | [] => none
  | cs => cs.foldl (fun acc c =>
      match acc with
      | none => none
      | some n => if c.isDigit then some (n * 10 + (c.toNat - 48)) else none)
      (some 0)

/-- Model of strconv.Atoi: optional sign followed by a non-empty digit run;
anything else is an error (none). -/
def atoi (s : GoStr) : Option Int :=
  match s with
  | '+' :: rest => (digitsToNat rest).map Int.ofNat
  | '-' :: rest => (digitsToNat rest).map (fun n => -(n : Int))
  | _ => (digitsToNat s).map Int.ofNat

/-- Model of strconv.Itoa. -/
def itoa (i : Int) : GoStr := (toString i).data

/-- Beat is a signed integer (note.go). -/
abbrev Beat := Int

/-- Pitch is a signed integer (pitch.go). -/
abbrev PitchInt := Int

/-- NoteType is a byte (note.go); modelled as the character it stores. -/
abbrev NoteTypeC := Char

/-- NoteTypeEndOfPhrase from note.go. -/
def NoteTypeEndOfPhrase : NoteTypeC := '-'

/-- A Note (note.go). The Go field Type is called Ty here because Type is a
reserved word in Lean. -/
structure Note where
  Ty : NoteTypeC
  Start : Beat
  Duration : Beat
  Pitch : PitchInt
  Text : GoStr
deriving DecidableEq

/-- A Voice (voice.go): a name and a sequence of notes. -/
structure Voice where
  Name : GoStr
  Notes : List Note
deriving DecidableEq

/-- Voice.IsEmpty (voice.go): true iff every note is an end-of-phrase
marker (in particular for an empty note list). -/
def Voice.IsEmpty (v : Voice) : Bool :=
  v.Notes.all (fun n => n.Ty == NoteTypeEndOfPhrase)

/-- The comparison relation used by Note.CompareStart (cmp.Compare on the
Start fields): note a sorts no later than note b. -/
def noteLe (a b : Note) : Prop := a.Start ≤ b.Start

instance : DecidableRel noteLe := fun a b => inferInstanceAs (Decidable (a.Start ≤ b.Start))

instance : IsTotal Note noteLe := ⟨fun a b => Int.le_total a.Start b.Start⟩

instance : IsTrans Note noteLe := ⟨fun _ _ _ h1 h2 => le_trans h1 h2⟩

/-- Voice.SortNotes (voice.go): slices.SortStableFunc(v.Notes,
Note.CompareStart), i.e. the stable sort of the notes by their Start beat.
Stable sorts are extensionally unique, so the concrete stable algorithm
(insertion sort here) is irrelevant. -/
def sortNotesList (l : List Note) : List Note := List.insertionSort noteLe l

/-- Voice.SortNotes applied to a voice. -/
def Voice.SortNotes (v : Voice) : Voice := { v with Notes := sortNotesList v.Notes }

/-- song.Voices[i].AppendNotes(n) inside Reader.readSong: append one note to
the voice at index i. (Go panics on an out-of-range index; readSong reaches
that only through the voice-bounds bug treated separately in the ReadNote
model, so the out-of-range case is a no-op here.) -/
def appendAt (i : Nat) (n : Note) : List Voice → List Voice
  | [] => []
  | v :: vs =>
    match i with
    | 0 => { v with Notes := v.Notes ++ [n] } :: vs
    | j + 1 => v :: appendAt j n vs

/-- The note-collection loop of Reader.readSong (reader.go:525-533): starting
from the voices created by Reader.Song (one per name, no notes), append each
(voice, note) event produced by ReadNote in source order. -/
def readSongCollect (names : List GoStr) (events : List (Nat × Note)) : List Voice :=
  events.foldl (fun vs e => appendAt e.1 e.2 vs) (names.map (fun nm => ⟨nm, []⟩))

/-- The predicate kept by the slices.DeleteFunc call in Reader.readSong
(reader.go:534-536): a voice survives iff it has a name or a meaningful note. -/
def keepVoice (v : Voice) : Bool := !(v.Name == ([] : GoStr) && v.IsEmpty)

/-- The voice post-processing of Reader.readSong (reader.go:525-539): append
all notes, delete voices that have neither a name nor meaningful notes
(slices.DeleteFunc), then stable-sort each remaining voice by Start. -/
def readSongVoices (names : List GoStr) (events : List (Nat × Note)) : List Voice :=
  (((readSongCollect names events).filter keepVoice).map Voice.SortNotes)

end GoUltrastar

namespace GoUltrastar

/-! Auxiliary lemmas about the stable sort used by Voice.SortNotes. -/

/-- Inserting a note into a list keeps the per-Start filtered subsequence,
with the inserted note (if it matches) in front: orderedInsert walks only
past notes with a strictly smaller Start. -/
theorem filter_orderedInsert (s : Int) (a : Note) (l : List Note) :
    (List.orderedInsert noteLe a l).filter (fun n => n.Start == s) =
      if a.Start = s then a :: l.filter (fun n => n.Start == s)
      else l.filter (fun n => n.Start == s) := by
  induction l with
  | nil =>
    by_cases h : a.Start = s <;> simp [List.orderedInsert, List.filter_cons, h]
  | cons b l ih =>
    simp only [List.orderedInsert]
    by_cases hab : noteLe a b
    · rw [if_pos hab]
      by_cases h : a.Start = s <;> simp [List.filter_cons, h]
    · rw [if_neg hab]
      have hb : b.Start < a.Start := by
        simpa [noteLe, not_le] using hab
      by_cases h : a.Start = s
      · have hbs : ¬(b.Start = s) := h ▸ ne_of_lt hb
        simp [List.filter_cons, hbs, ih, h]
      · by_cases hbs : b.Start = s <;> simp [List.filter_cons, hbs, ih, h]

/-- Stability of Voice.SortNotes: for each beat s, the notes starting at s
appear in the sorted list exactly in their original order. -/
theorem filter_sortNotesList (s : Int) (l : List Note) :
    (sortNotesList l).filter (fun n => n.Start == s) = l.filter (fun n => n.Start == s) := by
  induction l with
  | nil => rfl
  | cons a l ih =>
    show (List.orderedInsert noteLe a (List.insertionSort noteLe l)).filter _ = _
    rw [filter_orderedInsert]
    by_cases h : a.Start = s
    · rw [if_pos h]
      show a :: (sortNotesList l).filter _ = _
      rw [ih]
      simp [List.filter_cons, h]
    · rw [if_neg h]
      show (sortNotesList l).filter _ = _
      rw [ih]
      simp [List.filter_cons, h]

/-- Voice.SortNotes returns a permutation, so a per-note predicate holds of
all sorted notes iff it holds of all original notes. -/
theorem all_sortNotesList (p : Note → Bool) (l : List Note) :
    ((sortNotesList l).all p = true) ↔ (l.all p = true) := by
  simp only [List.all_eq_true]
  constructor <;> intro h x hx
  · exact h x (by simpa [sortNotesList] using hx)
  · exact h x (by simpa [sortNotesList] using hx)

/-! Auxiliary lemmas about the note-collection loop of Reader.readSong. -/

/-- appendAt does not change the number of voices. -/
theorem appendAt_length (i : Nat) (n : Note) (l : List Voice) :
    (appendAt i n l).length = l.length := by
  induction l generalizing i with
  | nil => simp [appendAt]
  | cons v vs ih => cases i <;> simp [appendAt, ih]

/-- Reading the voice list after appendAt: position i gained the note at its
end, all other positions are untouched. -/
theorem getElem?_appendAt (i j : Nat) (n : Note) (l : List Voice) :
    (appendAt i n l)[j]? =
      if i = j then (l[j]?).map (fun v => { v with Notes := v.Notes ++ [n] })
      else l[j]? := by
  induction l generalizing i j with
  | nil => cases i <;> (cases j <;> simp [appendAt])
  | cons v vs ih =>
    cases i with
    | zero => cases j <;> simp [appendAt]
    | succ i => cases j <;> simp [appendAt, ih]

/-- The collection loop preserves the number of voices. -/
theorem length_foldl_appendAt (events : List (Nat × Note)) (init : List Voice) :
    (events.foldl (fun vs e => appendAt e.1 e.2 vs) init).length = init.length := by
  induction events generalizing init with
  | nil => rfl
  | cons e es ih => simp [List.foldl_cons, ih, appendAt_length]

/-- After the collection loop, voice i holds its initial notes followed by
exactly the notes of the events addressed to voice i, in source order. -/
theorem foldl_appendAt_getElem? (events : List (Nat × Note)) (init : List Voice) (i : Nat) :
    (events.foldl (fun vs e => appendAt e.1 e.2 vs) init)[i]? =
      (init[i]?).map (fun v =>
        { v with Notes := v.Notes ++ (events.filter (fun e => e.1 == i)).map Prod.snd }) := by
  induction events generalizing init with
  | nil =>
    cases h : init[i]? <;> simp [h]
  | cons e es ih =>
    simp only [List.foldl_cons]
    rw [ih, getElem?_appendAt]
    by_cases hei : e.1 = i
    · have hb : (e.1 == i) = true := by simpa using hei
      rw [if_pos hei]
      cases h : init[i]? <;> simp [h, List.filter_cons, hb]
    · have hb : (e.1 == i) = false := by simpa using hei
      rw [if_neg hei]
      cases h : init[i]? <;> simp [h, List.filter_cons, hb]

/-- The number of collected voices equals the number of initial voice names. -/
theorem readSongCollect_length (names : List GoStr) (events : List (Nat × Note)) :
    (readSongCollect names events).length = names.length := by
  rw [readSongCollect, length_foldl_appendAt, List.length_map]

/-- Closed form for the collected voice at index i: its header name and the
notes of its events in source order. -/
theorem readSongCollect_getElem? (names : List GoStr) (events : List (Nat × Note)) (i : Nat)
    (h : i < names.length) :
    (readSongCollect names events)[i]? =
      some ⟨names[i], (events.filter (fun e => e.1 == i)).map Prod.snd⟩ := by
  rw [readSongCollect, foldl_appendAt_getElem?, List.getElem?_map,
    List.getElem?_eq_getElem h]
  simp

end GoUltrastar

namespace GoUltrastar

/-- Concrete note used by witnesses (a regular note at beat 5). -/
def wNoteX : Note := ⟨':', 5, 1, 0, str "x"⟩

/-- Concrete note used by witnesses (a regular note at beat 3). -/
def wNoteY : Note := ⟨':', 3, 1, 0, str "y"⟩

/-- C3: whenever ReadSong returns a song, every voice of the song is sorted
by Start (for i < j, Notes[i].Start ≤ Notes[j].Start, stated as Pairwise
noteLe), and within the voice the notes starting at any fixed beat s appear
exactly in the order in which ReadNote produced them for that voice (the
per-voice stable sort preserves the appended source order). -/
theorem readSong_sort_invariant (names : List GoStr) (events : List (Nat × Note)) :
    ∀ v ∈ readSongVoices names events,
      v.Notes.Pairwise noteLe ∧
      ∃ i, ∃ h : i < names.length, v.Name = names[i] ∧
        ∀ s : Int, v.Notes.filter (fun n => n.Start == s) =
          ((events.filter (fun e => e.1 == i)).map Prod.snd).filter (fun n => n.Start == s) := by
  intro v hv
  rw [readSongVoices] at hv
  obtain ⟨u, hu, rfl⟩ := List.mem_map.mp hv
  have humem : u ∈ readSongCollect names events := List.mem_of_mem_filter hu
  obtain ⟨i, hi, hget⟩ := List.mem_iff_getElem.mp humem
  have hlen : i < names.length := by
    rwa [readSongCollect_length] at hi
  have hq : (readSongCollect names events)[i]? = some u := by
    rw [List.getElem?_eq_getElem hi, hget]
  rw [readSongCollect_getElem? names events i hlen] at hq
  have hu_eq : u = ⟨names[i], (events.filter (fun e => e.1 == i)).map Prod.snd⟩ :=
    (Option.some_inj.mp hq).symm
  constructor
  · exact List.sorted_insertionSort noteLe u.Notes
  · refine ⟨i, hlen, ?_, ?_⟩
    · rw [hu_eq]
      rfl
    · intro s
      show (sortNotesList u.Notes).filter _ = _
      rw [filter_sortNotesList, hu_eq]

/-- Witness for C3 at a concrete input: two notes read for voice 0 out of
order come back sorted. -/
theorem readSong_sort_invariant_witness :
    ((⟨str "A", [wNoteY, wNoteX]⟩ : Voice) ∈
        readSongVoices [str "A"] [(0, wNoteX), (0, wNoteY)]) ∧
    ((⟨str "A", [wNoteY, wNoteX]⟩ : Voice).Notes.Pairwise noteLe ∧
      ∃ i, ∃ h : i < [str "A"].length,
        (⟨str "A", [wNoteY, wNoteX]⟩ : Voice).Name = [str "A"][i] ∧
        ∀ s : Int,
          (⟨str "A", [wNoteY, wNoteX]⟩ : Voice).Notes.filter (fun n => n.Start == s) =
            (([(0, wNoteX), (0, wNoteY)].filter (fun e => e.1 == i)).map Prod.snd).filter
              (fun n => n.Start == s)) :=
  ⟨by decide, readSong_sort_invariant [str "A"] [(0, wNoteX), (0, wNoteY)] _ (by decide)⟩

/-- C8 counterexample: with nine nameless voices and a single note read for
voice 1, voice 0 is nameless and empty and precedes the non-empty voice 1,
yet after ReadSong it does not keep its position: slices.DeleteFunc removes
every nameless empty voice, so the result is the single voice holding the
note, now at index 0. -/
theorem readSong_prune_position_counterexample :
    readSongVoices (List.replicate 9 []) [(1, wNoteX)] = [⟨[], [wNoteX]⟩] ∧
    (⟨[], []⟩ : Voice) ∉ readSongVoices (List.replicate 9 []) [(1, wNoteX)] := by
  decide

/-- C8 (amended): after ReadSong no voice without a name and without
meaningful notes survives, regardless of its position; the remaining voices
keep their relative order but not their player indices. -/
theorem readSong_prunes_nameless_empty_voices (names : List GoStr)
    (events : List (Nat × Note)) :
    ∀ v ∈ readSongVoices names events, ¬(v.Name = [] ∧ v.IsEmpty = true) := by
  intro v hv hcon
  obtain ⟨hname, hemp⟩ := hcon
  rw [readSongVoices] at hv
  obtain ⟨u, hu, rfl⟩ := List.mem_map.mp hv
  have hkeep : keepVoice u = true := List.of_mem_filter hu
  have hname2 : u.Name = [] := hname
  have hemp2 : u.IsEmpty = true := by
    have hall : (sortNotesList u.Notes).all (fun n => n.Ty == NoteTypeEndOfPhrase) = true :=
      hemp
    exact (all_sortNotesList _ u.Notes).mp hall
  rw [keepVoice] at hkeep
  simp [hname2, hemp2] at hkeep

/-- Witness for the amended C8 at a concrete input: a named voice survives
and indeed is not nameless-and-empty. -/
theorem readSong_prunes_nameless_empty_voices_witness :
    ((⟨str "A", []⟩ : Voice) ∈ readSongVoices [str "A"] []) ∧
    ¬((⟨str "A", []⟩ : Voice).Name = [] ∧ (⟨str "A", []⟩ : Voice).IsEmpty = true) :=
  ⟨by decide, readSong_prunes_nameless_empty_voices [str "A"] [] _ (by decide)⟩

end GoUltrastar

namespace GoUltrastar

/-! Header model (header.go) and header errors (reader.go). -/

/-- Errors arising from header processing: the named errors ErrMultipleValues
and ErrNoValue from header.go, and free-form errors built with fmt.Errorf. -/
inductive GoErr where
  | multipleValues
  | noValue
  | msg (s : GoStr)
deriving DecidableEq

/-- CanonicalHeaderKey (header.go:109-114): keys containing a colon have no
canonical form (empty string); otherwise the key is trimmed and upper-cased. -/
def canonicalHeaderKey (key : GoStr) : GoStr :=
  if key.contains ':' then [] else goToUpper (trimSpace key)

/-- The Header multi-map (header.go:123), modelled as an association list
from canonical keys to value lists. -/
abbrev Header := List (GoStr × List GoStr)

/-- Header.Values (header.go:283-288): the raw value list stored under the
canonicalized key, nil when the key is absent. -/
def headerValues (h : Header) (key : GoStr) : List GoStr :=
  (h.lookup (canonicalHeaderKey key)).getD []

/-- The loop of uniqueHeaderAs (header.go:398-417), carrying the current
candidate value t and the found flag. Empty values are skipped; a conversion
error aborts; a second non-empty value whose conversion differs from the
current candidate yields ErrMultipleValues. -/
def uniqueHeaderAsLoop {T : Type} [DecidableEq T] (conv : GoStr → Except GoErr T)
    (required : Bool) : List GoStr → T → Bool → Except GoErr T
  | [], t, found => if required && !found then .error .noValue else .ok t
  | v :: vs, t, found =>
    if v = [] then uniqueHeaderAsLoop conv required vs t found
    else
      match conv v with
      | .error e => .error e
      | .ok tp =>
        if found && decide (t ≠ tp) then .error .multipleValues
        else uniqueHeaderAsLoop conv required vs tp true

/-- uniqueHeaderAs (header.go:398-417). The zero value of the Go type
parameter T is passed explicitly as t0. -/
def uniqueHeaderAs {T : Type} [DecidableEq T] (t0 : T) (values : List GoStr)
    (required : Bool) (conv : GoStr → Except GoErr T) : Except GoErr T :=
  uniqueHeaderAsLoop conv required values t0 false

/-- Header.GetUnique (header.go:263-267): uniqueHeaderAs over the values of
the canonicalized key, not required, with the identity conversion. -/
def getUnique (h : Header) (key : GoStr) : Except GoErr GoStr :=
  uniqueHeaderAs [] (headerValues h key) false (fun v => .ok v)

/-- If a value list has no non-empty element, the GetUnique loop returns its
current candidate unchanged. -/
theorem getUniqueLoop_of_no_nonEmpty (values : List GoStr) (t : GoStr) (found : Bool)
    (hf : values.filter (fun v => v != []) = []) :
    uniqueHeaderAsLoop (fun v => .ok v) false values t found = .ok t := by
  induction values generalizing found with
  | nil => rfl
  | cons v vs ih =>
    rw [List.filter_cons] at hf
    by_cases hv : v = []
    · have hb : (v != []) = false := by simp [hv]
      rw [hb, if_neg Bool.false_ne_true] at hf
      simpa [uniqueHeaderAsLoop, hv] using ih found hf
    · have hb : (v != []) = true := by simpa using hv
      rw [hb, if_pos rfl] at hf
      exact absurd hf (List.cons_ne_nil v _)

/-- If every non-empty value equals the found candidate t, the GetUnique
loop confirms t. -/
theorem getUniqueLoop_of_all_eq (values : List GoStr) (t : GoStr)
    (hall : ∀ x ∈ values.filter (fun v => v != []), x = t) :
    uniqueHeaderAsLoop (fun v => .ok v) false values t true = .ok t := by
  induction values with
  | nil => rfl
  | cons v vs ih =>
    rw [List.filter_cons] at hall
    by_cases hv : v = []
    · have hb : (v != []) = false := by simp [hv]
      rw [hb, if_neg Bool.false_ne_true] at hall
      simpa [uniqueHeaderAsLoop, hv] using ih hall
    · have hb : (v != []) = true := by simpa using hv
      rw [hb, if_pos rfl] at hall
      have hvt : v = t := hall v (List.mem_cons_self v _)
      have hrest : ∀ x ∈ vs.filter (fun w => w != []), x = t := fun x hx =>
        hall x (List.mem_cons_of_mem v hx)
      subst hvt
      simpa [uniqueHeaderAsLoop, hv] using ih hrest

/-- If some non-empty value differs from the found candidate t, the
GetUnique loop reports ErrMultipleValues. -/
theorem getUniqueLoop_of_conflict (values : List GoStr) (t : GoStr)
    (hconf : ∃ x ∈ values.filter (fun v => v != []), x ≠ t) :
    uniqueHeaderAsLoop (fun v => .ok v) false values t true = .error .multipleValues := by
  induction values generalizing t with
  | nil => simp at hconf
  | cons v vs ih =>
    rw [List.filter_cons] at hconf
    by_cases hv : v = []
    · have hb : (v != []) = false := by simp [hv]
      rw [hb, if_neg Bool.false_ne_true] at hconf
      simpa [uniqueHeaderAsLoop, hv] using ih t hconf
    · have hb : (v != []) = true := by simpa using hv
      rw [hb, if_pos rfl] at hconf
      by_cases hvt : t = v
      · subst hvt
        obtain ⟨x, hx, hxt⟩ := hconf
        rcases List.mem_cons.mp hx with hxv | hxvs
        · exact absurd hxv hxt
        · simpa [uniqueHeaderAsLoop, hv] using ih t ⟨x, hxvs, hxt⟩
      · simp [uniqueHeaderAsLoop, hv, hvt]

end GoUltrastar

namespace GoUltrastar

/-- If all non-empty values of a list agree pairwise, the GetUnique loop
started with an unset found flag cannot report ErrMultipleValues. -/
theorem getUniqueLoop_start_no_conflict (values : List GoStr) (t : GoStr)
    (hno : ∀ a ∈ values.filter (fun v => v != []),
      ∀ b ∈ values.filter (fun v => v != []), a = b) :
    uniqueHeaderAsLoop (fun v => .ok v) false values t false ≠ .error .multipleValues := by
  induction values generalizing t with
  | nil => simp [uniqueHeaderAsLoop]
  | cons v vs ih =>
    rw [List.filter_cons] at hno
    by_cases hv : v = []
    · have hb : (v != []) = false := by simp [hv]
      rw [hb, if_neg Bool.false_ne_true] at hno
      simpa [uniqueHeaderAsLoop, hv] using ih t hno
    · have hb : (v != []) = true := by simpa using hv
      rw [hb, if_pos rfl] at hno
      have hall : ∀ x ∈ vs.filter (fun w => w != []), x = v := fun x hx =>
        hno x (List.mem_cons_of_mem v hx) v (List.mem_cons_self v _)
      have hok := getUniqueLoop_of_all_eq vs v hall
      simp [uniqueHeaderAsLoop, hv, hok]

/-- C9: GetUnique returns the single non-empty value stored under the
canonicalized key (empty values are ignored); it returns ErrMultipleValues
exactly when two non-empty values for the key differ (identical repeated
values are not an error); and it returns the empty string with no error
when no non-empty value exists. -/
theorem getUnique_contract (h : Header) (key : GoStr) :
    ((headerValues h key).filter (fun v => v != []) = [] →
      getUnique h key = .ok []) ∧
    (∀ v0, (headerValues h key).filter (fun v => v != []) ≠ [] →
      (∀ x ∈ (headerValues h key).filter (fun v => v != []), x = v0) →
      getUnique h key = .ok v0) ∧
    (getUnique h key = .error .multipleValues ↔
      ∃ a ∈ (headerValues h key).filter (fun v => v != []),
        ∃ b ∈ (headerValues h key).filter (fun v => v != []), a ≠ b) := by
  refine ⟨?_, ?_, ?_⟩
  · intro hf
    exact getUniqueLoop_of_no_nonEmpty _ _ _ hf
  · intro v0 hne hall
    unfold getUnique uniqueHeaderAs
    generalize hV : headerValues h key = values at hne hall
    clear hV
    induction values with
    | nil => simp at hne
    | cons v vs ih =>
      rw [List.filter_cons] at hne hall
      by_cases hv : v = []
      · have hb : (v != []) = false := by simp [hv]
        rw [hb, if_neg Bool.false_ne_true] at hne hall
        simpa [uniqueHeaderAsLoop, hv] using ih hne hall
      · have hb : (v != []) = true := by simpa using hv
        rw [hb, if_pos rfl] at hne hall
        have hvv0 : v = v0 := hall v (List.mem_cons_self v _)
        have hrest : ∀ x ∈ vs.filter (fun w => w != []), x = v0 := fun x hx =>
          hall x (List.mem_cons_of_mem v hx)
        subst hvv0
        simpa [uniqueHeaderAsLoop, hv] using getUniqueLoop_of_all_eq vs v hrest
  · constructor
    · intro herr
      have herr2 : uniqueHeaderAsLoop (fun v => .ok v) false (headerValues h key) [] false =
          .error .multipleValues := herr
      by_contra hno
      push_neg at hno
      exact getUniqueLoop_start_no_conflict (headerValues h key) [] hno herr2
    · intro hex
      obtain ⟨a, ha, b, hb, hab⟩ := hex
      unfold getUnique uniqueHeaderAs
      generalize hV : headerValues h key = values at ha hb
      clear hV
      induction values with
      | nil => simp at ha
      | cons v vs ih =>
        rw [List.filter_cons] at ha hb
        by_cases hv : v = []
        · have hbv : (v != []) = false := by simp [hv]
          rw [hbv, if_neg Bool.false_ne_true] at ha hb
          simpa [uniqueHeaderAsLoop, hv] using ih ha hb
        · have hbv : (v != []) = true := by simpa using hv
          rw [hbv, if_pos rfl] at ha hb
          have hconf : ∃ x ∈ vs.filter (fun w => w != []), x ≠ v := by
            rcases List.mem_cons.mp ha with hav | havs
            · rcases List.mem_cons.mp hb with hbv2 | hbvs
              · exact absurd (hav.trans hbv2.symm) hab
              · exact ⟨b, hbvs, fun hc => hab (hav.trans hc.symm)⟩
            · rcases List.mem_cons.mp hb with hbv2 | hbvs
              · exact ⟨a, havs, fun hc => hab (hc.trans hbv2.symm)⟩
              · by_cases hca : a = v
                · exact ⟨b, hbvs, fun hc => hab (hca.trans hc.symm)⟩
                · exact ⟨a, havs, hca⟩
          simpa [uniqueHeaderAsLoop, hv] using getUniqueLoop_of_conflict vs v hconf

end GoUltrastar

namespace GoUltrastar

/-- Concrete header used by witnesses: TITLE with an empty value and the
value foo stored twice. -/
def wHeader : Header := [(str "TITLE", [[], str "foo", str "foo"])]

/-- Witness for C9 at a concrete input: a repeated identical value is not an
error, and the single non-empty value is returned. -/
theorem getUnique_contract_witness :
    getUnique wHeader (str "title") = .ok (str "foo") :=
  (getUnique_contract wHeader (str "title")).2.1 (str "foo") (by decide) (by decide)

/-- The exported HeaderError type (reader.go:63-66): a header key and a
wrapped error. The internal headerError type has the same fields. -/
structure HeaderError where
  Key : GoStr
  Err : Option GoErr
deriving DecidableEq

/-- NewHeaderError (reader.go:86-88): builds the internal headerError with
the canonicalized key. -/
def NewHeaderError (key : GoStr) (e : Option GoErr) : HeaderError :=
  ⟨canonicalHeaderKey key, e⟩

/-- headerError.Is (reader.go:102-115). The target argument is some t when
the target error is a *HeaderError and none otherwise (the type assertion
fails). The errorsIs parameter stands for the nested errors.Is call on the
wrapped errors; it is a parameter precisely so that the theorem below can
show its result never matters. -/
def headerErrorIs (e : HeaderError) (target : Option HeaderError)
    (errorsIs : Option GoErr → Option GoErr → Bool) : Bool :=
  match target with
  | none => false
  | some t =>
    if t.Key != [] && t.Key != e.Key then false
    else if decide (e.Err ≠ none) && errorsIs t.Err e.Err then true
    else true

/-- C10: matching an internal headerError against a *HeaderError target
depends only on the keys: the match succeeds exactly when the target key is
empty or equal to the (canonicalized) key of the error, for every possible
behaviour of the nested errors.Is on the wrapped errors; a target of a
different type never matches. -/
theorem headerErrorIs_key_only (key : GoStr) (errE : Option GoErr) (t : HeaderError)
    (errorsIs : Option GoErr → Option GoErr → Bool) :
    (headerErrorIs (NewHeaderError key errE) (some t) errorsIs = true ↔
      (t.Key = [] ∨ t.Key = canonicalHeaderKey key)) ∧
    headerErrorIs (NewHeaderError key errE) none errorsIs = false := by
  refine ⟨?_, rfl⟩
  show (if t.Key != [] && t.Key != canonicalHeaderKey key then false
      else if decide (errE ≠ none) && errorsIs t.Err errE then true else true) = true ↔ _
  by_cases h1 : t.Key = []
  · simp [h1]
  · by_cases h2 : t.Key = canonicalHeaderKey key
    · simp [h1, h2]
    · simp [h1, h2]

/-- Witness for C10 at a concrete input: a canonicalized key matches its own
error even under a nested comparison that always answers false, and a
mismatching non-empty key never matches even under a nested comparison that
always answers true. -/
theorem headerErrorIs_key_only_witness :
    headerErrorIs (NewHeaderError (str " bpm ") (some .noValue)) (some ⟨str "BPM", none⟩)
        (fun _ _ => false) = true ∧
    headerErrorIs (NewHeaderError (str " bpm ") (some .noValue)) (some ⟨str "GAP", none⟩)
        (fun _ _ => true) = false :=
  ⟨(headerErrorIs_key_only (str " bpm ") (some .noValue) ⟨str "BPM", none⟩
      (fun _ _ => false)).1.mpr (by decide),
    by
      have h := (headerErrorIs_key_only (str " bpm ") (some .noValue) ⟨str "GAP", none⟩
        (fun _ _ => true)).1
      by_contra hc
      simp only [Bool.not_eq_false] at hc
      have := h.mp hc
      revert this
      decide⟩

end GoUltrastar

namespace GoUltrastar

/-! Pitch parsing (pitch.go). -/

/-- noteNames (pitch.go:15). -/
def noteNames : List GoStr :=
  [str "C", str "C#", str "D", str "D#", str "E", str "F", str "F#", str "G", str "G#",
    str "A", str "A#", str "B"]

/-- The two error cases of PitchFromString: the named error
ErrInvalidPitchName, and the invalid-octave error wrapping strconv.Atoi. -/
inductive PitchErr where
  | invalidName
  | invalidOctave
deriving DecidableEq

/-- PitchFromString (pitch.go:32-59). The function indexes s[0] and s[1]
without bounds checks, so inputs of length 0 or 1 are runtime panics. The
name-matching loop compares each entry of noteNames against the one-byte
string s[0] and keeps the last match. -/
def pitchFromString (s : GoStr) : GoRes (Except PitchErr Int) :=
  match s[0]? with
  | none => .panic
  | some c0 =>
    let pr := noteNames.enum.foldl
      (fun (acc : Int × Bool) nn => if nn.2 == [c0] then ((nn.1 : Int), true) else acc)
      (0, false)
    if !pr.2 then .ok (.error .invalidName)
    else
      match s[1]? with
      | none => .panic
      | some c1 =>
        let p1 := if c1 = '#' then pr.1 + 1 else if c1 = 'b' then pr.1 - 1 else pr.1
        let rest := if c1 = '#' || c1 = 'b' then s.drop 2 else s.drop 1
        match atoi rest with
        | none => .ok (.error .invalidOctave)
        | some octave => .ok (.ok (p1 + (octave - 4) * (noteNames.length : Int)))

/-- C6: evaluation of PitchFromString at the decisive inputs. The claim
holds for an invalid first character ("X4" fails with ErrInvalidPitchName)
and for full pitch names ("C4" is 0, "A4" is 9, "Db4" is 1), but the
one-character input "C" panics with an index-out-of-range on s[1] instead
of returning pitch 0, and the octave is not optional: "C#" fails with an
invalid-octave error instead of defaulting to octave 4. -/
theorem pitchFromString_eval :
    pitchFromString (str "C") = .panic ∧
    pitchFromString (str "C4") = .ok (.ok 0) ∧
    pitchFromString (str "A4") = .ok (.ok 9) ∧
    pitchFromString (str "Db4") = .ok (.ok 1) ∧
    pitchFromString (str "C#") = .ok (.error .invalidOctave) ∧
    pitchFromString (str "X4") = .ok (.error .invalidName) := by
  decide

/-! Voice.ConvertToLeadingSpaces (voice.go:122-131). -/

/-- Model of strings.HasSuffix(s, a single space). -/
def endsInSpace (s : GoStr) : Bool := s.getLast? == some ' '

/-- Write the text of the note at index i (the assignments to
v.Notes[i].Text and v.Notes[i+1].Text in the loop body). -/
def setTextAt (i : Nat) (t : GoStr) : List Note → List Note
  | [] => []
  | n :: ns =>
    match i with
    | 0 => { n with Text := t } :: ns
    | j + 1 => n :: setTextAt j t ns

/-- The inner loop of ConvertToLeadingSpaces for one range iteration, on
explicit fuel. The loop variable n is a copy taken at the start of the
iteration: the guard re-reads n.Text (here nText), which the body never
modifies, and the body stores n.Text minus its last byte into note i and a
space followed by the full n.Text into note i+1. -/
def convInner (fuel : Nat) (nText : GoStr) (nTy : NoteTypeC) (notes : List Note)
    (i : Nat) : GoRes (List Note) :=
  match fuel with
  | 0 => .noFuel
  | fuel + 1 =>
    if endsInSpace nText then
      let notes1 := setTextAt i (nText.take (nText.length - 1)) notes
      let notes2 :=
        if nTy != NoteTypeEndOfPhrase then setTextAt (i + 1) (' ' :: nText) notes1
        else notes1
      convInner fuel nText nTy notes2 i
    else .ok notes

/-- Voice.ConvertToLeadingSpaces (voice.go:122-131): ranges over
v.Notes[0 : len(v.Notes)-1] (which panics for an empty note list), reading
the current note at each index and running the inner loop. -/
def convertToLeadingSpaces (fuel : Nat) (notes : List Note) : GoRes (List Note) :=
  match notes with
  | [] => .panic
  | _ :: _ =>
    (List.range (notes.length - 1)).foldl
      (fun acc i =>
        match acc with
        | .ok ns =>
          match ns[i]? with
          | none => .panic
          | some n => convInner fuel n.Text n.Ty ns i
        | other => other)
      (.ok notes)

/-- The inner loop never exits once entered: its guard depends only on the
copied text, which no iteration changes. -/
theorem convInner_of_endsInSpace (fuel : Nat) (nText : GoStr) (nTy : NoteTypeC)
    (notes : List Note) (i : Nat) (h : endsInSpace nText = true) :
    convInner fuel nText nTy notes i = .noFuel := by
  induction fuel generalizing notes with
  | zero => rfl
  | succ fuel ih =>
    show (if endsInSpace nText then _ else _) = GoRes.noFuel
    rw [if_pos h]
    exact ih _

/-- C7: ConvertToLeadingSpaces is not total. On a voice whose first note
text ends in a space it never terminates, for every fuel bound: the inner
loop tests the range-copy of the note, which the body never updates. On an
empty voice it panics, because v.Notes[0 : len(v.Notes)-1] has a negative
bound. So no trailing space is ever successfully moved. -/
theorem convertToLeadingSpaces_diverges :
    (∀ fuel : Nat,
      convertToLeadingSpaces fuel
        [⟨':', 1, 2, 0, str "a "⟩, ⟨':', 3, 2, 0, str "b"⟩] = .noFuel) ∧
    (∀ fuel : Nat, convertToLeadingSpaces fuel [] = .panic) := by
  constructor
  · intro fuel
    show convInner fuel (str "a ") ':'
      [⟨':', 1, 2, 0, str "a "⟩, ⟨':', 3, 2, 0, str "b"⟩] 0 = .noFuel
    exact convInner_of_endsInSpace fuel _ _ _ _ (by decide)
  · intro fuel
    rfl

end GoUltrastar

namespace GoUltrastar

/-! Multi-valued header encoding and decoding (header.go). -/

/-- strings.ReplaceAll(v, a comma, two commas), used by encodeMultiValue. -/
def doubleCommas : GoStr → GoStr
  | [] => []
  | ',' :: rest => ',' :: ',' :: doubleCommas rest
  | c :: rest => c :: doubleCommas rest

/-- strings.ReplaceAll(s, two commas, one comma), used by
parseMultiValuedHeader. ReplaceAll scans left to right without overlap. -/
def collapseCommas : GoStr → GoStr
  | ',' :: ',' :: rest => ',' :: collapseCommas rest
  | c :: rest => c :: collapseCommas rest
  | [] => []

/-- encodeMultiValue (header.go:195-206): trim each value, drop empties,
escape each internal comma as two commas, join with a comma. -/
def encodeMultiValue (values : List GoStr) : GoStr :=
  List.intercalate [','] (((values.map trimSpace).filter (fun v => v != [])).map doubleCommas)

/-- strings.Index(s, a comma): position of the first comma, if any. -/
def indexOfComma (s : GoStr) : Option Nat := s.findIdx? (fun c => c == ',')

/-- The post-loop handling of parseMultiValuedHeader (header.go:445-449):
trim, collapse escaped commas, yield unless empty. -/
def mvTail (rawValue : GoStr) : List GoStr :=
  let r := collapseCommas (trimSpace rawValue)
  if r != [] then [r] else []

/-- The scanning loop of parseMultiValuedHeader for one raw value
(header.go:428-449), on explicit fuel. Faithfully to the source, the
escaped-comma test reads rawValue[j+1] with j the index of the comma
relative to rawValue[from:], not the absolute index from+j+1; and slicing
rawValue[from:] panics when from exceeds the length. -/
def parseMVLoop : Nat → GoStr → Nat → GoRes (List GoStr)
  | 0, _, _ => .noFuel
  | fuel + 1, rawValue, fromIdx =>
    if rawValue = [] then .ok (mvTail rawValue)
    else if fromIdx > rawValue.length then .panic
    else
      match indexOfComma (rawValue.drop fromIdx) with
      | none => .ok (mvTail rawValue)
      | some j =>
        if rawValue.length > j + 1 && rawValue[j + 1]? == some ',' then
          parseMVLoop fuel rawValue (fromIdx + j + 2)
        else
          let frag := collapseCommas (trimSpace (rawValue.take (fromIdx + j)))
          let rest := rawValue.drop (fromIdx + j + 1)
          match parseMVLoop fuel rest 0 with
          | .ok frags => .ok ((if frag != [] then [frag] else []) ++ frags)
          | other => other

/-- parseMultiValuedHeader (header.go:422-452): run the scanning loop over
each raw value in order, collecting the yielded fragments. The fuel bound
2·length+2 covers every loop step, since each step either consumes input or
advances the from index by at least two. -/
def parseMultiValuedHeader (vs : List GoStr) : GoRes (List GoStr) :=
  vs.foldl
    (fun acc rawValue =>
      match acc with
      | .ok frags =>
        match parseMVLoop (2 * rawValue.length + 2) rawValue 0 with
        | .ok fs => .ok (frags ++ fs)
        | other => other
      | other => other)
    (.ok [])

/-- C2: the multi-value round trip fails. The list with items a-comma-b and
c (non-empty, no surrounding whitespace) encodes correctly, but decoding
collapses everything into a single item: after skipping the escaped comma
the decoder tests rawValue[j+1] with the relative index j, mistakes the
separator for an escape, and runs off the end of the value. The repository
test vectors for the decoder are also reproduced to anchor the model. -/
theorem multiValue_roundTrip_bug :
    encodeMultiValue [str "a,b", str "c"] = str "a,,b,c" ∧
    parseMultiValuedHeader [str "a,,b,c"] = .ok [str "a,b,c"] ∧
    [str "a,b,c"] ≠ [str "a,b", str "c"] ∧
    parseMultiValuedHeader [str "foo,bar", str "foobar"] =
      .ok [str "foo", str "bar", str "foobar"] ∧
    parseMultiValuedHeader [str "foo,,,bar,"] = .ok [str "foo,", str "bar"] := by
  decide

end GoUltrastar

namespace GoUltrastar

/-! Reader note stream (reader.go:359-475). -/

/-- The reader state used by ReadNote and parseNote: the Relative flag, the
current voice index (reader.go:221), and the per-voice relative offsets,
a nine-element array in the source (rel [9]Beat, reader.go:222). The
Encoding field is modelled as unset (nil), under which note text passes
through unchanged. -/
structure ReaderState where
  Relative : Bool
  voice : Nat
  rel : List Beat
deriving DecidableEq

/-- The reader state directly after Reset: voice P1, all relative offsets
zero (reader.go:257-258). -/
def initReader : ReaderState := ⟨false, 0, List.replicate 9 0⟩

/-- parseNote (reader.go:405-475). Indexing r.rel[r.voice] is modelled
fallibly: reading past the end of the nine-element array is a runtime
panic. On success the note and the updated reader state are returned (the
state changes only for an end-of-phrase line in relative mode, which adds
the parsed offset to the current voice's relative counter). -/
def parseNote (r : ReaderState) (line : GoStr) : GoRes (Except GoStr (Note × ReaderState)) :=
  match line with
  | [] => .ok (.error (str "invalid note type"))
  | c :: lineRest =>
    let text0 : GoStr := if c = NoteTypeEndOfPhrase then str "\n" else []
    let fv := nextField lineRest
    match atoi fv.1 with
    | none => .ok (.error (str "invalid note start"))
    | some start =>
      match r.rel[r.voice]? with
      | none => .panic
      | some relv =>
        let note1 : Note := ⟨c, start + relv, 0, 0, text0⟩
        if c = NoteTypeEndOfPhrase && !r.Relative then
          if (trimSpace fv.2).length > 0 then
            .ok (.error (str "invalid line break: extra text"))
          else .ok (.ok (note1, r))
        else
          let fv2 := nextField fv.2
          match atoi fv2.1 with
          | none =>
            if c = NoteTypeEndOfPhrase then
              .ok (.error (str "invalid line break: invalid relative offset"))
            else .ok (.error (str "invalid note duration"))
          | some duration =>
            if c = NoteTypeEndOfPhrase then
              if (trimSpace fv2.2).length > 0 then
                .ok (.error (str "invalid line break: extra text"))
              else
                .ok (.ok (note1, { r with rel := r.rel.set r.voice (relv + duration) }))
            else
              let note2 := { note1 with Duration := duration }
              let fv3 := nextField fv2.2
              match atoi fv3.1 with
              | none => .ok (.error (str "invalid note pitch"))
              | some pitch =>
                let note3 := { note2 with Pitch := pitch }
                match fv3.2 with
                | [] => .ok (.error (str "missing whitespace after note pitch"))
                | wc :: text =>
                  if !isSpaceChar wc then
                    .ok (.error (str "missing whitespace after note pitch"))
                  else if text = [] then .ok (.error (str "empty note text"))
                  else .ok (.ok ({ note3 with Text := text }, r))

/-- Driver for repeated ReadNote calls (reader.go:359-401) over the
remaining input lines: empty lines are skipped; a line starting with E ends
the song (with a syntax error if more than the E remains after trimming); a
line starting with P parses the trimmed remainder as an integer v and
selects voice v-1, failing for v lower than 1 (multiple voice changes
collapse); any other line is a note line handed to parseNote, and the note
is returned together with the current voice. The result collects the
(note, voice) pairs and an optional syntax-error message. -/
def runReadNotes (r : ReaderState) : List GoStr → GoRes (List (Note × Nat) × Option GoStr)
  | [] => .ok ([], none)
  | line :: rest =>
    let trimmed := trimSpace line
    if trimmed = [] then runReadNotes r rest
    else
      match line with
      | [] => runReadNotes r rest
      | c :: _ =>
        if c = 'E' then
          if trimmed.length > 1 then .ok ([], some (str "invalid end tag"))
          else .ok ([], none)
        else if c = 'P' then
          match atoi (trimSpace (trimmed.drop 1)) with
          | none => .ok ([], some (str "invalid voice change"))
          | some v =>
            if v ≤ 0 then .ok ([], some (str "invalid voice change"))
            else runReadNotes { r with voice := (v - 1).toNat } rest
        else
          match parseNote r line with
          | .panic => .panic
          | .noFuel => .noFuel
          | .ok (.error e) => .ok ([], some (str "invalid note: " ++ e))
          | .ok (.ok (n, r2)) =>
            match runReadNotes r2 rest with
            | .ok (ns, t) => .ok ((n, r2.voice) :: ns, t)
            | other => other

/-- C4: the voice-change bounds are not enforced and the reader can panic.
The line P 10 is accepted without any error (second conjunct: the run ends
cleanly), selecting voice index 9; the following note line then reads
r.rel[9] in the nine-element relative-offset array and panics (first
conjunct). A voice number below one is rejected as claimed (third
conjunct), and in-range voice changes work (fourth conjunct). -/
theorem readNote_voice_bounds_eval :
    runReadNotes initReader [str "P 10", str ": 0 1 2 La"] = .panic ∧
    runReadNotes initReader [str "P 10"] = .ok ([], none) ∧
    runReadNotes initReader [str "P 0", str ": 0 1 2 La"] =
      .ok ([], some (str "invalid voice change")) ∧
    runReadNotes initReader [str "P 9", str ": 0 1 2 La"] =
      .ok ([(⟨':', 0, 1, 2, str "La"⟩, 8)], none) :=
  ⟨by decide, by decide, by decide, by decide⟩

end GoUltrastar

namespace GoUltrastar

/-! Writer note emission (Writer.WriteNote). -/

/-- The writer state used by WriteNote: the field separator, the Relative
flag, the per-voice relative counters (nine entries, made by Reset), and
the current voice (set to -1 by VoiceChange to force a leading P line). -/
structure WriterState where
  FieldSeparator : Char
  Relative : Bool
  rel : List Beat
  voice : Int
deriving DecidableEq

/-- Writer.WriteNote. A voice outside P1..P9 (indices 0..8) panics. If the
voice differs from the current voice a P line is emitted first. In relative
mode the voice's relative counter is subtracted from the start before
printing; an end-of-phrase note in relative mode prints the adjusted start
twice and adds the adjusted start to the voice's counter. The emitted text
and the updated writer state are returned. -/
def writeNote (w : WriterState) (n : Note) (voice : Int) : GoRes (GoStr × WriterState) :=
  if voice < 0 ∨ voice > 8 then .panic
  else
    let pfx : GoStr := if voice != w.voice then str "P" ++ itoa (voice + 1) ++ str "\n" else []
    let w1 := if voice != w.voice then { w with voice := voice } else w
    let vN := voice.toNat
    match (if w1.Relative then w1.rel[vN]? else some 0) with
    | none => .panic
    | some rv =>
      let start := if w1.Relative then n.Start - rv else n.Start
      if n.Ty = NoteTypeEndOfPhrase then
        if w1.Relative then
          .ok (pfx ++ [NoteTypeEndOfPhrase, w1.FieldSeparator] ++ itoa start ++
              [w1.FieldSeparator] ++ itoa start ++ str "\n",
            { w1 with rel := w1.rel.set vN (rv + start) })
        else
          .ok (pfx ++ [NoteTypeEndOfPhrase, w1.FieldSeparator] ++ itoa start ++ str "\n", w1)
      else
        .ok (pfx ++ [n.Ty, w1.FieldSeparator] ++ itoa start ++ [w1.FieldSeparator] ++
            itoa n.Duration ++ [w1.FieldSeparator] ++ itoa n.Pitch ++
            [w1.FieldSeparator] ++ n.Text ++ str "\n", w1)

/-- A relative-mode writer whose voice-0 relative counter is 5. -/
def wRelWriter : WriterState := ⟨' ', true, [5, 0, 0, 0, 0, 0, 0, 0, 0], 0⟩

/-- An end-of-phrase note at absolute beat 12. -/
def wEopNote : Note := ⟨'-', 12, 0, 0, str "\n"⟩

/-- C5 counterexample: with counter 5, writing an end-of-phrase note that
starts at 12 emits the adjusted start 7 twice, as claimed, but the new
counter is 12 (the adjusted start was added, making the counter the
original start), not 5 + 12 = 17 as the claim's second half predicts. -/
theorem writeNote_relative_counter_counterexample :
    writeNote wRelWriter wEopNote 0 =
      .ok (str "- 7 7\n", ⟨' ', true, [12, 0, 0, 0, 0, 0, 0, 0, 0], 0⟩) ∧
    (12 : Int) ≠ 5 + 12 :=
  ⟨by decide, by decide⟩

end GoUltrastar

namespace GoUltrastar

/-- C5 (amended): in relative mode, writing an end-of-phrase note n for an
in-range voice whose relative counter is rv emits (after a voice-change
line when the voice differs from the writer's current voice) the line with
the adjusted start n.Start - rv printed twice, and adds the adjusted start
to the counter, so that the counter becomes the original n.Start (not
rv + n.Start as the original claim stated). -/
theorem writeNote_relative_eop (w : WriterState) (n : Note) (voice : Int) (rv : Beat)
    (h0 : 0 ≤ voice) (h8 : voice ≤ 8) (hr : w.Relative = true)
    (hty : n.Ty = NoteTypeEndOfPhrase) (hrv : w.rel[voice.toNat]? = some rv) :
    writeNote w n voice =
      .ok ((if voice != w.voice then str "P" ++ itoa (voice + 1) ++ str "\n" else []) ++
          [NoteTypeEndOfPhrase, w.FieldSeparator] ++ itoa (n.Start - rv) ++
          [w.FieldSeparator] ++ itoa (n.Start - rv) ++ str "\n",
        { w with voice := voice, rel := w.rel.set voice.toNat n.Start }) := by
  have hcond : ¬(voice < 0 ∨ voice > 8) := by rintro (hc | hc) <;> omega
  have hcancel : rv + (n.Start - rv) = n.Start := by ring
  obtain ⟨fs, wRelF, wrel, wv⟩ := w
  obtain ⟨ty, nst, ndu, npi, nte⟩ := n
  dsimp only at hr hty hrv ⊢
  subst hr hty
  by_cases hv : voice = wv
  · subst hv
    simp [writeNote, if_neg hcond, hrv, hcancel]
  · have hbne : (voice != wv) = true := by simpa using hv
    simp [writeNote, if_neg hcond, hbne, hrv, hcancel]

/-- Witness for the amended C5 at a concrete input: the relative writer
with counter 5 writing the end-of-phrase note at 12 for voice 0. -/
theorem writeNote_relative_eop_witness :
    ((0 : Int) ≤ 0 ∧ (0 : Int) ≤ 8 ∧ wRelWriter.Relative = true ∧
      wEopNote.Ty = NoteTypeEndOfPhrase ∧
      wRelWriter.rel[(0 : Int).toNat]? = some 5) ∧
    writeNote wRelWriter wEopNote 0 =
      .ok ((if (0 : Int) != wRelWriter.voice then
            str "P" ++ itoa ((0 : Int) + 1) ++ str "\n" else []) ++
          [NoteTypeEndOfPhrase, wRelWriter.FieldSeparator] ++
          itoa (wEopNote.Start - 5) ++ [wRelWriter.FieldSeparator] ++
          itoa (wEopNote.Start - 5) ++ str "\n",
        { wRelWriter with
            voice := 0, rel := wRelWriter.rel.set (0 : Int).toNat wEopNote.Start }) :=
  ⟨⟨by decide, by decide, rfl, rfl, by decide⟩,
    writeNote_relative_eop wRelWriter wEopNote 0 5 (by decide) (by decide) rfl rfl (by decide)⟩

end GoUltrastar

namespace GoUltrastar

/-! BPM header coercion (reader.go:634-642) and emission (songHeader). -/

/-- strings.Replace(v, comma, dot, 1) inside parseFloat (header.go:456-461). -/
def replaceFirstComma : GoStr → GoStr
  | [] => []
  | ',' :: rest => '.' :: rest
  | c :: rest => c :: replaceFirstComma rest

/-- Numeric value of a digit run (all characters assumed digits). -/
def digitsVal (cs : GoStr) : Nat := cs.foldl (fun n c => n * 10 + (c.toNat - 48)) 0

/-- strconv.ParseFloat on an unsigned plain decimal literal, with exact
rational arithmetic standing in for float64: an optional integer part, an
optional dot with a fractional part, at least one digit in total. The
exponent, infinity and NaN forms of ParseFloat lie outside the fragment the
BPM claims exercise. -/
def parseUnsignedQ (s : GoStr) : Option ℚ :=
  let ip := s.takeWhile Char.isDigit
  let rest := s.drop ip.length
  match rest with
  | [] => if ip = [] then none else some ((digitsVal ip : ℚ))
  | '.' :: frac =>
    if frac.all Char.isDigit && !(ip = [] && frac = []) then
      some ((digitsVal ip : ℚ) + (digitsVal frac : ℚ) / ((10 : ℚ) ^ frac.length))
    else none
  | _ => none

/-- parseFloat (header.go:456-461): when allowComma is set the first comma
becomes a decimal point; then the string is parsed as a float, here with an
optional leading sign. -/
def parseFloat (v : GoStr) (allowComma : Bool) : Option ℚ :=
  let s1 := if allowComma then replaceFirstComma v else v
  match s1 with
  | '+' :: rest => parseUnsignedQ rest
  | '-' :: rest => (parseUnsignedQ rest).map Neg.neg
  | _ => parseUnsignedQ s1

/-- The conversion function passed by Reader.setSongHeader for the BPM key
(reader.go:635-642): parse the stored value as a float (comma allowed for
versions below 2), multiply by 4, and require the result to be a valid BPM
(greater than zero; on a parse error the float is zero, so the validity
check fails as well). -/
def bpmConvert (major : Nat) (v : GoStr) : Except GoErr ℚ :=
  let f := (parseFloat v (decide (major < 2))).getD 0
  let b := f * 4
  if b ≤ 0 then .error (.msg (str "invalid BPM value")) else .ok b

/-- Reader.setSongHeader for the BPM key (reader.go:634-642): s.BPM is the
unique header value converted by bpmConvert; the header is required. -/
def setSongHeaderBPM (major : Nat) (values : List GoStr) : Except GoErr ℚ :=
  uniqueHeaderAs (0 : ℚ) values true (bpmConvert major)

/-- The numeric value the Writer stores under the BPM key: songHeader calls
h.SetFloat(HeaderBPM, float64(s.BPM)), passing the in-memory BPM unchanged
(no division by 4). -/
def songHeaderBPMValue (sBPM : ℚ) : ℚ := sBPM

/-- Reading a single stored BPM value v that parses to the float q with a
positive quadruple yields the in-memory BPM 4 times q. -/
theorem setSongHeaderBPM_single (major : Nat) (v : GoStr) (q : ℚ)
    (hv : v ≠ []) (hq : parseFloat v (decide (major < 2)) = some q)
    (hpos : 0 < q * 4) :
    setSongHeaderBPM major [v] = .ok (q * 4) := by
  have hb : bpmConvert major v = .ok (q * 4) := by
    unfold bpmConvert
    rw [hq]
    simp only [Option.getD_some]
    rw [if_neg (not_le.mpr hpos)]
  show uniqueHeaderAsLoop (bpmConvert major) true [v] 0 false = .ok (q * 4)
  simp only [uniqueHeaderAsLoop]
  rw [if_neg hv, hb]
  rfl

/-- C1: evaluation of both directions of the BPM storage convention. The
reader direction holds: a stored value 12 yields an in-memory BPM of 48,
and a stored 12,5 or 12.5 yields 50 (comma allowed below version 2). The
writer direction fails: for a song whose in-memory BPM is 48 the writer
stores 48, which is not 48 / 4 as the claim requires. -/
theorem bpm_storage_convention_eval :
    setSongHeaderBPM 0 [str "12"] = .ok 48 ∧
    setSongHeaderBPM 0 [str "12,5"] = .ok 50 ∧
    setSongHeaderBPM 2 [str "12.5"] = .ok 50 ∧
    songHeaderBPMValue 48 = 48 ∧
    songHeaderBPMValue 48 ≠ 48 / 4 := by
  refine ⟨?_, ?_, ?_, rfl, by norm_num [songHeaderBPMValue]⟩
  · rw [show (48 : ℚ) = ((12 : ℕ) : ℚ) * 4 by norm_num]
    exact setSongHeaderBPM_single 0 (str "12") _ (by decide) rfl (by norm_num)
  · rw [show (50 : ℚ) = (((12 : ℕ) : ℚ) + ((5 : ℕ) : ℚ) / ((10 : ℚ) ^ 1)) * 4 by norm_num]
    exact setSongHeaderBPM_single 0 (str "12,5") _ (by decide) rfl (by norm_num)
  · rw [show (50 : ℚ) = (((12 : ℕ) : ℚ) + ((5 : ℕ) : ℚ) / ((10 : ℚ) ^ 1)) * 4 by norm_num]
    exact setSongHeaderBPM_single 2 (str "12.5") _ (by decide) rfl (by norm_num)

end GoUltrastar
